import Mathlib

/-!
Verification of the alignment pipeline in `aeneas/executetask.py` (class
`ExecuteTask`).  Times are modelled as rationals, the interval maps as lists
of records, and the stateful `execute` method as an explicit state-passing
function parametrised by the outcomes of its external stages (ffmpeg
conversion, MFCC extraction, SD detection, synthesis, DTW alignment, VAD).
-/

namespace Aeneas

/-- A text fragment (`aeneas.textfile.TextFragment`): an identifier and the
text lines.  The language attribute plays no role in the verified claims. -/
structure TextFragment where
  tid : String
  lines : List String
deriving DecidableEq, Repr, Inhabited

/-- One row of an interval map as built by `ExecuteTask._align_text` and
consumed by `_translate_text_map` / `_create_syncmap`: a Python list
`[start_time, end_time, fragment_id, fragment_text]` where the id and text
are `None` on the HEAD/TAIL rows. -/
structure TMapEntry where
  start : ℚ
  stop : ℚ
  fragId : Option String
  fragText : Option String
deriving DecidableEq, Repr, Inhabited

/-- A synthesis anchor as produced by `Synthesizer.synthesize` and consumed
by `_align_text`: a triple `(time, fragment_id, fragment_text)` giving the
start time of the fragment in the synthesized wave. -/
structure Anchor where
  time : ℚ
  fragId : String
  fragText : String
deriving DecidableEq, Repr, Inhabited

/-- A sync map fragment (`aeneas.syncmap.SyncMapFragment`): a text fragment
with its begin and end times on the real audio timeline. -/
structure SyncFragment where
  fragment : TextFragment
  start : ℚ
  stop : ℚ
deriving DecidableEq, Repr, Inhabited

/-- The head/tail formats of `aeneas.syncmap.SyncMapHeadTailFormat`. -/
inductive HeadTailFormat
  | ADD
  | STRETCH
  | HIDDEN
deriving DecidableEq, Repr, Inhabited

/-- The boundary-adjustment algorithms of
`aeneas.adjustboundaryalgorithm.AdjustBoundaryAlgorithm`. -/
inductive AdjustAlgo
  | AUTO
  | AFTERCURRENT
  | BEFORENEXT
  | OFFSET
  | PERCENT
  | RATE
  | RATEAGGRESSIVE
deriving DecidableEq, Repr, Inhabited

/-- The slice of the task configuration read and written by `ExecuteTask`;
the `other` field stands for every configuration field the class never
touches, so that frame conditions can be stated. -/
structure Config where
  is_audio_file_head_length : Option ℚ
  is_audio_file_process_length : Option ℚ
  is_audio_file_detect_head_min : Option ℚ
  is_audio_file_detect_head_max : Option ℚ
  is_audio_file_detect_tail_min : Option ℚ
  is_audio_file_detect_tail_max : Option ℚ
  adjust_boundary_algorithm : Option AdjustAlgo
  adjust_boundary_value : Option ℚ
  os_file_head_tail_format : Option HeadTailFormat
  other : List (String × String)
deriving DecidableEq, Repr, Inhabited

/-- The slice of `aeneas.task.Task` used by `ExecuteTask.execute`:
`audio_length = none` models a missing audio file object (otherwise the
audio length reported by the audio file), `text_file = none` a missing text
file object (otherwise its fragments). -/
structure Task where
  audio_length : Option ℚ
  text_file : Option (List TextFragment)
  configuration : Config
  sync_map : Option (List SyncFragment)
deriving DecidableEq, Repr, Inhabited

/-- `aeneas.globalfunctions.safe_float`: convert to float, returning the
default when the value is `None` (or not convertible). -/
def safe_float (value : Option ℚ) (default : ℚ) : ℚ :=
  value.getD default

/-! ### Argmin of the absolute deviation (`numpy.abs(synt_times - time).argmin()`)

`numpy.ndarray.argmin` returns the index of the first occurrence of the
minimum value; on an empty array it raises.  `argminAbsO` returns the pair
(first minimising index, minimum value) and `none` on the empty list. -/

/-- First index minimising the distance to `t`, with the minimum value;
`none` on the empty list (numpy raises there). -/
def argminAbsO (t : ℚ) : List ℚ → Option (Nat × ℚ)
  | [] => none
  | x :: xs =>
    match argminAbsO t xs with
    | none => some (0, |x - t|)
    | some (j, v) => if |x - t| ≤ v then some (0, |x - t|) else some (j + 1, v)

/-- The index computed by `numpy.abs(xs - t).argmin()` (0 on the empty
list, where numpy would instead raise; callers guard non-emptiness). -/
def argminAbs (t : ℚ) (xs : List ℚ) : Nat :=
  ((argminAbsO t xs).getD (0, 0)).1


/-! ### `ExecuteTask._align_text` -/

/-- A projected real anchor row `[real_time, fragment_id, fragment_text]`
(the rows of the local `real_anchors` list in `_align_text`). -/
abbrev RealAnchor : Type := ℚ × Option String × Option String

/-- The final loop of `_align_text`: for `i in range(len(real_anchors)-1)`,
emit `[real_anchors[i][0], real_anchors[i+1][0], real_anchors[i][1],
real_anchors[i][2]]`. -/
def consecIntervals : List RealAnchor → List TMapEntry
  | a :: b :: rest => ⟨a.1, b.1, a.2.1, a.2.2⟩ :: consecIntervals (b :: rest)
  | _ => []

/-- The `real_anchors` list of `_align_text`: each synthesis anchor
projected to the real time at the first argmin of the synthetic-time
distances, followed by the dummy last anchor at the last real time
(`real_times[-1]`). -/
def realAnchors (wave_map : List (ℚ × ℚ)) (synt_anchors : List Anchor) :
    List RealAnchor :=
  (synt_anchors.map fun a =>
    ((wave_map.map Prod.fst).getD (argminAbs a.time (wave_map.map Prod.snd)) 0,
     some a.fragId, some a.fragText)) ++
  [((wave_map.map Prod.fst).getD ((wave_map.map Prod.fst).length - 1) 0,
    none, none)]

/-- `ExecuteTask._align_text`: project every synthesis anchor onto the real
timeline through the wave map, append the dummy last anchor, and pair
consecutive projected times into intervals.  On an empty wave map the
numpy `argmin` (non-empty anchors) or the final `real_times[-1]` indexing
raises, the exception is caught, and the method reports failure. -/
def alignText (wave_map : List (ℚ × ℚ)) (synt_anchors : List Anchor) :
    Option (List TMapEntry) :=
  if wave_map = [] then none
  else some (consecIntervals (realAnchors wave_map synt_anchors))

/-! ### `ExecuteTask._translate_text_map` -/

/-- `ExecuteTask._translate_text_map`: shift the interval map of the trimmed
audio by the configured head length, prepend the `[0, head]` dummy row and
append the `[last_end, real_full_wave_length]` dummy row; fail on an empty
map.  The local `end` variable starts at `0` and is overwritten by each
row's shifted end, which the trailing fold mirrors. -/
def translateTextMap (head_length_cfg : Option ℚ) (real_full_wave_length : ℚ)
    (text_map : List TMapEntry) : Option (List TMapEntry) :=
  if text_map = [] then none
  else
    let head := safe_float head_length_cfg 0
    let shifted := text_map.map fun e =>
      ({ start := e.start + head, stop := e.stop + head,
         fragId := e.fragId, fragText := e.fragText } : TMapEntry)
    let endTime := text_map.foldl (fun _ e => e.stop + head) 0
    some (⟨0, head, none, none⟩ ::
      (shifted ++ [⟨endTime, real_full_wave_length, none, none⟩]))

/-- The translated map in closed form: the `[0, head]` row, the shifted
rows, and the `[last_shifted_end, real_full_wave_length]` row
(`translateTextMap` returns exactly this list on non-empty input). -/
def translatedMap (head_length_cfg : Option ℚ) (real_full_wave_length : ℚ)
    (text_map : List TMapEntry) : List TMapEntry :=
  ⟨0, safe_float head_length_cfg 0, none, none⟩ ::
    (text_map.map (fun e =>
      ⟨e.start + safe_float head_length_cfg 0,
       e.stop + safe_float head_length_cfg 0, e.fragId, e.fragText⟩) ++
     [⟨(text_map.getD (text_map.length - 1) default).stop +
         safe_float head_length_cfg 0, real_full_wave_length, none, none⟩])

/-! ### `ExecuteTask._adjust_boundaries` -/

/-- `ExecuteTask._adjust_boundaries`: with no configured algorithm or with
`AUTO` the input map is returned before the VAD object is even created, so
the result does not depend on the VAD outcome.  For the other algorithms
the VAD (`aeneas.vad.VAD`, outside this repository slice, modelled by the
`vad_outcome` parameter: `none` when `compute_vad` raises) is run and the
external `AdjustBoundaryAlgorithm.adjust` (modelled by the opaque-to-us
function parameter `external_adjust`) produces the adjusted map. -/
def adjustBoundaries (algo : Option AdjustAlgo) (vad_outcome : Option Unit)
    (external_adjust : List TMapEntry → List TMapEntry)
    (text_map : List TMapEntry) : Option (List TMapEntry) :=
  match algo with
  | none => some text_map
  | some AdjustAlgo.AUTO => some text_map
  | some _ =>
    match vad_outcome with
    | none => none
    | some _ => some (external_adjust text_map)

/-! ### `ExecuteTask._create_syncmap` -/

/-- The in-place mutation performed by `_create_syncmap` under the STRETCH
format: `adjusted_map[1][0] = head[0]` and `adjusted_map[-2][1] = tail[1]`,
where `head`/`tail` alias rows 0 and -1 of the list. -/
def stretchFix (m : List TMapEntry) : List TMapEntry :=
  let head := m.getD 0 default
  let tail := m.getD (m.length - 1) default
  let m1 := m.set 1 { m.getD 1 default with start := head.start }
  m1.set (m1.length - 2) { m1.getD (m1.length - 2) default with stop := tail.stop }

/-- The sync map built by the body of `_create_syncmap` (after its length
check has passed): a HEAD sync fragment (ADD only), one sync fragment per
text fragment carrying the times of rows `1 .. K`, and a TAIL sync
fragment (ADD only), after the STRETCH mutation of the first and last
fragment rows. -/
def createSyncmapBody (fragments : List TextFragment)
    (head_tail_format : Option HeadTailFormat)
    (adjusted_map : List TMapEntry) : List SyncFragment :=
  let head := adjusted_map.getD 0 default
  let tail := adjusted_map.getD (adjusted_map.length - 1) default
  let am := if head_tail_format = some HeadTailFormat.STRETCH then
      stretchFix adjusted_map
    else adjusted_map
  let mids := (List.range fragments.length).map fun i =>
    ({ fragment := fragments.getD i default,
       start := (am.getD (i + 1) default).start,
       stop := (am.getD (i + 1) default).stop } : SyncFragment)
  let headFrags := if head_tail_format = some HeadTailFormat.ADD then
      [({ fragment := ⟨"HEAD", [""]⟩, start := head.start, stop := head.stop } : SyncFragment)]
    else ([] : List SyncFragment)
  let tailFrags := if head_tail_format = some HeadTailFormat.ADD then
      [({ fragment := ⟨"TAIL", [""]⟩, start := tail.start, stop := tail.stop } : SyncFragment)]
    else ([] : List SyncFragment)
  headFrags ++ mids ++ tailFrags

/-- `ExecuteTask._create_syncmap`: fail when the adjusted map does not have
exactly two rows (HEAD and TAIL) more than the text fragments; otherwise
build the sync map of `createSyncmapBody`. -/
def createSyncmap (fragments : List TextFragment)
    (head_tail_format : Option HeadTailFormat)
    (adjusted_map : List TMapEntry) : Option (List SyncFragment) :=
  if adjusted_map.length ≠ fragments.length + 2 then none
  else some (createSyncmapBody fragments head_tail_format adjusted_map)

/-- The tail of the pipeline from the trimmed-audio interval map to the
sync map: STEP 6 (`_translate_text_map`) followed by STEP 8
(`_create_syncmap`); STEP 7 (`_adjust_boundaries`) is the identity when the
configured algorithm is `None` or `AUTO` (see `adjustBoundaries`). -/
def pipelineSyncmap (fragments : List TextFragment)
    (head_tail_format : Option HeadTailFormat) (head_length_cfg : Option ℚ)
    (real_full_wave_length : ℚ) (text_map : List TMapEntry) :
    Option (List SyncFragment) :=
  (translateTextMap head_length_cfg real_full_wave_length text_map).bind
    fun translated => createSyncmap fragments head_tail_format translated

/-! ### `ExecuteTask._cut_head_tail` (configuration effect) -/

/-- The configuration effect of `ExecuteTask._cut_head_tail` on its success
path.  The externally computed SD detections (`aeneas.sd.SD`, outside this
repository slice) enter as the parameters `detected_head` / `detected_tail`;
the audio trimming itself touches the wave file, not the configuration. -/
def cutHeadTail (cfg : Config) (audio_length : ℚ)
    (detected_head detected_tail : ℚ) : Config :=
  let explicit := cfg.is_audio_file_head_length.isSome ||
    cfg.is_audio_file_process_length.isSome
  let detect := cfg.is_audio_file_detect_head_min.isSome ||
    cfg.is_audio_file_detect_head_max.isSome ||
    cfg.is_audio_file_detect_tail_min.isSome ||
    cfg.is_audio_file_detect_tail_max.isSome
  if explicit || detect then
    if explicit then cfg
    else
      let head := if cfg.is_audio_file_detect_head_min.isSome ||
          cfg.is_audio_file_detect_head_max.isSome then detected_head else 0
      let tail := if cfg.is_audio_file_detect_tail_min.isSome ||
          cfg.is_audio_file_detect_tail_max.isSome then detected_tail else 0
      { cfg with
        is_audio_file_head_length := some (max 0 head),
        is_audio_file_process_length := some (max 0 (audio_length - tail - head)) }
  else cfg

/-! ### `ExecuteTask.execute` as a state machine -/

/-- Outcomes of the external stages of `ExecuteTask.execute`: the ffmpeg
conversion (STEP 0), the MFCC extraction (STEP 1), the head/tail cutting
(STEP 2, whose configuration effect is an arbitrary update since SD and the
file writes live outside this repository slice), the synthesizer (STEP 3),
the DTW aligner (STEP 4) and the VAD with the external boundary adjuster
(STEP 7).  `none` models the stage raising. -/
structure StageEnv where
  convert_ok : Bool
  convert_handler : Option Nat
  convert_path : Option String
  mfcc_outcome : Option ℚ
  cut_ok : Bool
  cut_config : Config → Config
  synth_ok : Bool
  synth_handler : Option Nat
  synth_path : Option String
  synth_anchors : List Anchor
  wave_map_outcome : Option (List (ℚ × ℚ))
  vad_outcome : Option Unit
  external_adjust : List TMapEntry → List TMapEntry

/-- The observable result of a run of `execute`: the returned flag, the
task (sync map and configuration), the final `cleanup_info` list, and the
handlers closed / paths removed during the run. -/
structure ExecResult where
  ok : Bool
  task : Task
  cleanup_info : List (Option Nat × Option String)
  closed : List Nat
  removed : List String

/-- Terminate a run after `ExecuteTask._cleanup`: every recorded handler is
closed, every recorded path is removed, and `cleanup_info` is emptied. -/
def finishRun (ok : Bool) (t : Task)
    (info : List (Option Nat × Option String)) : ExecResult :=
  ⟨ok, t, [], info.filterMap Prod.fst, info.filterMap Prod.snd⟩

/-- `ExecuteTask.execute`: the input checks, then STEPs 0-8 in sequence,
with `_cleanup` on every exit path from STEP 0 on.  The tempfile pairs of
STEP 0 and STEP 3 are appended to `cleanup_info` before the stage result is
inspected, so a failed conversion or synthesis still has its tempfile
cleaned up. -/
def executeModel (env : StageEnv) (task : Task) : ExecResult :=
  match task.audio_length with
  | none => ⟨false, task, [], [], []⟩
  | some audio_length =>
    if audio_length ≤ 0 then ⟨false, task, [], [], []⟩
    else match task.text_file with
    | none => ⟨false, task, [], [], []⟩
    | some fragments =>
      if fragments.length = 0 then ⟨false, task, [], [], []⟩
      else
        let info0 : List (Option Nat × Option String) :=
          [(env.convert_handler, env.convert_path)]
        if env.convert_ok = false then finishRun false task info0
        else match env.mfcc_outcome with
        | none => finishRun false task info0
        | some real_full_wave_length =>
          let task2 := { task with configuration := env.cut_config task.configuration }
          if env.cut_ok = false then finishRun false task2 info0
          else
            let info3 := info0 ++ [(env.synth_handler, env.synth_path)]
            if env.synth_ok = false then finishRun false task2 info3
            else match env.wave_map_outcome with
            | none => finishRun false task2 info3
            | some wave_map =>
              match alignText wave_map env.synth_anchors with
              | none => finishRun false task2 info3
              | some text_map =>
                match translateTextMap task2.configuration.is_audio_file_head_length
                    real_full_wave_length text_map with
                | none => finishRun false task2 info3
                | some translated =>
                  match adjustBoundaries task2.configuration.adjust_boundary_algorithm
                      env.vad_outcome env.external_adjust translated with
                  | none => finishRun false task2 info3
                  | some adjusted =>
                    match createSyncmap fragments
                        task2.configuration.os_file_head_tail_format adjusted with
                    | none => finishRun false task2 info3
                    | some sm =>
                      finishRun true { task2 with sync_map := some sm } info3

/-! ### Lemmas -/

theorem argminAbsO_eq_none_iff (t : ℚ) (xs : List ℚ) :
    argminAbsO t xs = none ↔ xs = [] := by
  cases xs with
  | nil => simp [argminAbsO]
  | cons x xs =>
    simp only [argminAbsO]
    cases h : argminAbsO t xs with
    | none => simp
    | some p =>
      obtain ⟨j, v⟩ := p
      by_cases hle : |x - t| ≤ v <;> simp [hle]

theorem argminAbsO_isSome (t : ℚ) (xs : List ℚ) (h : xs ≠ []) :
    ∃ j v, argminAbsO t xs = some (j, v) := by
  cases hx : argminAbsO t xs with
  | none => exact absurd ((argminAbsO_eq_none_iff t xs).mp hx) h
  | some p => exact ⟨p.1, p.2, by simp [hx]⟩

/-- The returned value is the distance at the returned index, and the
index is in range. -/
theorem argminAbsO_val (t : ℚ) :
    ∀ (xs : List ℚ) (j : Nat) (v : ℚ), argminAbsO t xs = some (j, v) →
      j < xs.length ∧ v = |xs.getD j 0 - t|
  | [], j, v, h => by simp [argminAbsO] at h
  | x :: xs, j, v, h => by
    simp only [argminAbsO] at h
    cases hx : argminAbsO t xs with
    | none =>
      rw [hx] at h
      obtain ⟨hj, hv⟩ := Prod.mk.injEq .. ▸ Option.some.injEq .. ▸ h
      simp only [Option.some.injEq, Prod.mk.injEq] at h
      obtain ⟨hj, hv⟩ := h
      subst hj; subst hv
      simp
    | some p =>
      obtain ⟨j0, v0⟩ := p
      rw [hx] at h
      by_cases hle : |x - t| ≤ v0
      · simp only [hle, if_true, Option.some.injEq, Prod.mk.injEq] at h
        obtain ⟨hj, hv⟩ := h
        subst hj; subst hv
        simp
      · simp only [hle, if_false, Option.some.injEq, Prod.mk.injEq] at h
        obtain ⟨hj, hv⟩ := h
        subst hj; subst hv
        obtain ⟨hlt, hval⟩ := argminAbsO_val t xs j0 v0 hx
        refine ⟨by simpa using Nat.succ_lt_succ hlt, ?_⟩
        simpa using hval

/-- The returned value is a lower bound for every distance in the list. -/
theorem argminAbsO_min (t : ℚ) :
    ∀ (xs : List ℚ) (j : Nat) (v : ℚ), argminAbsO t xs = some (j, v) →
      ∀ i, i < xs.length → v ≤ |xs.getD i 0 - t|
  | [], j, v, h => by simp [argminAbsO] at h
  | x :: xs, j, v, h => by
    simp only [argminAbsO] at h
    cases hx : argminAbsO t xs with
    | none =>
      have hnil : xs = [] := (argminAbsO_eq_none_iff t xs).mp hx
      subst hnil
      rw [hx] at h
      simp only [Option.some.injEq, Prod.mk.injEq] at h
      obtain ⟨hj, hv⟩ := h
      subst hv
      intro i hi
      have hi0 : i = 0 := by simpa using hi
      subst hi0
      simp
    | some p =>
      obtain ⟨j0, v0⟩ := p
      rw [hx] at h
      have ih := argminAbsO_min t xs j0 v0 hx
      by_cases hle : |x - t| ≤ v0
      · simp only [hle, if_true, Option.some.injEq, Prod.mk.injEq] at h
        obtain ⟨hj, hv⟩ := h
        subst hv
        intro i hi
        cases i with
        | zero => simp
        | succ i =>
          have : i < xs.length := by simpa using hi
          calc |x - t| ≤ v0 := hle
            _ ≤ |xs.getD i 0 - t| := ih i this
            _ = |(x :: xs).getD (i + 1) 0 - t| := by simp
      · simp only [hle, if_false, Option.some.injEq, Prod.mk.injEq] at h
        obtain ⟨hj, hv⟩ := h
        subst hv
        intro i hi
        cases i with
        | zero =>
          simpa using le_of_lt (lt_of_not_le hle)
        | succ i =>
          have : i < xs.length := by simpa using hi
          simpa using ih i this

/-- Indices before the returned one have strictly larger distance: the
returned index is the first occurrence of the minimum. -/
theorem argminAbsO_first (t : ℚ) :
    ∀ (xs : List ℚ) (j : Nat) (v : ℚ), argminAbsO t xs = some (j, v) →
      ∀ i, i < j → v < |xs.getD i 0 - t|
  | [], j, v, h => by simp [argminAbsO] at h
  | x :: xs, j, v, h => by
    simp only [argminAbsO] at h
    cases hx : argminAbsO t xs with
    | none =>
      rw [hx] at h
      simp only [Option.some.injEq, Prod.mk.injEq] at h
      obtain ⟨hj, hv⟩ := h
      subst hj
      intro i hi
      exact absurd hi (Nat.not_lt_zero i)
    | some p =>
      obtain ⟨j0, v0⟩ := p
      rw [hx] at h
      have ih := argminAbsO_first t xs j0 v0 hx
      by_cases hle : |x - t| ≤ v0
      · simp only [hle, if_true, Option.some.injEq, Prod.mk.injEq] at h
        obtain ⟨hj, hv⟩ := h
        subst hj
        intro i hi
        exact absurd hi (Nat.not_lt_zero i)
      · simp only [hle, if_false, Option.some.injEq, Prod.mk.injEq] at h
        obtain ⟨hj, hv⟩ := h
        subst hj; subst hv
        intro i hi
        cases i with
        | zero => simpa using lt_of_not_le hle
        | succ i =>
          have : i < j0 := by omega
          simpa using ih i this

theorem argminAbs_eq (t : ℚ) (xs : List ℚ) (j : Nat) (v : ℚ)
    (h : argminAbsO t xs = some (j, v)) : argminAbs t xs = j := by
  simp [argminAbs, h]

/-! ### Helper lemmas on `List.getD` -/

theorem getD_map_eq {α β : Type} (f : α → β) :
    ∀ (l : List α) (n : Nat) (d : α), n < l.length →
      (l.map f).getD n (f d) = f (l.getD n d)
  | [], n, d, h => by simp at h
  | x :: l, 0, d, h => by simp
  | x :: l, n + 1, d, h => by
    simp only [List.map_cons, List.getD_cons_succ]
    exact getD_map_eq f l n d (by simpa using h)

theorem getD_append_eq {α : Type} :
    ∀ (l l' : List α) (n : Nat) (d : α), n < l.length →
      (l ++ l').getD n d = l.getD n d
  | [], l', n, d, h => by simp at h
  | x :: l, l', 0, d, h => by simp
  | x :: l, l', n + 1, d, h => by
    simp only [List.cons_append, List.getD_cons_succ]
    exact getD_append_eq l l' n d (by simpa using h)

theorem getD_append_last {α : Type} :
    ∀ (l : List α) (x : α) (d : α), (l ++ [x]).getD l.length d = x
  | [], x, d => by simp
  | y :: l, x, d => by
    simp only [List.cons_append, List.length_cons, List.getD_cons_succ]
    exact getD_append_last l x d

/-- In a list sorted non-decreasingly, `getD` is monotone on in-range
indices. -/
theorem getD_mono_of_pairwise (xs : List ℚ) (hs : xs.Pairwise (· ≤ ·))
    {i j : Nat} (hij : i ≤ j) (hj : j < xs.length) : xs.getD i 0 ≤ xs.getD j 0 := by
  rcases Nat.lt_or_ge i j with hlt | hge
  · have hi : i < xs.length := lt_trans hlt hj
    have := List.pairwise_iff_get.mp hs ⟨i, hi⟩ ⟨j, hj⟩ hlt
    simpa [List.getD_eq_getElem, List.get_eq_getElem, hi, hj] using this
  · have : i = j := le_antisymm hij hge
    subst this
    exact le_refl _

/-- Monotonicity of the first-argmin index in the target value, over a
non-decreasingly sorted list. -/
theorem argminAbs_mono (xs : List ℚ) (hxs : xs ≠ []) (hs : xs.Pairwise (· ≤ ·))
    {t t' : ℚ} (ht : t ≤ t') : argminAbs t xs ≤ argminAbs t' xs := by
  obtain ⟨j, v, hj⟩ := argminAbsO_isSome t xs hxs
  obtain ⟨j', v', hj'⟩ := argminAbsO_isSome t' xs hxs
  rw [argminAbs_eq t xs j v hj, argminAbs_eq t' xs j' v' hj']
  by_contra hcon
  push_neg at hcon
  -- so j' < j; write a for the earlier value, b for the later one
  obtain ⟨hjlen, hv⟩ := argminAbsO_val t xs j v hj
  obtain ⟨hj'len, hv'⟩ := argminAbsO_val t' xs j' v' hj'
  set a := xs.getD j' 0 with ha
  set b := xs.getD j 0 with hb
  have hab : a ≤ b := getD_mono_of_pairwise xs hs (le_of_lt hcon) hjlen
  have h1 : |b - t| < |a - t| := by
    have := argminAbsO_first t xs j v hj j' hcon
    rw [hv] at this
    exact this
  have h2 : |a - t'| ≤ |b - t'| := by
    have := argminAbsO_min t' xs j' v' hj' j hjlen
    rw [hv'] at this
    exact this
  have s1 : (b - t) * (b - t) < (a - t) * (a - t) := by
    have := mul_self_lt_mul_self (abs_nonneg (b - t)) h1
    rwa [abs_mul_abs_self, abs_mul_abs_self] at this
  have s2 : (a - t') * (a - t') ≤ (b - t') * (b - t') := by
    have := mul_self_le_mul_self (abs_nonneg (a - t')) h2
    rwa [abs_mul_abs_self, abs_mul_abs_self] at this
  nlinarith [mul_nonneg (sub_nonneg.mpr hab) (sub_nonneg.mpr ht)]

theorem consecIntervals_length :
    ∀ (l : List RealAnchor), (consecIntervals l).length = l.length - 1
  | [] => rfl
  | [_] => rfl
  | a :: b :: rest => by
    simp only [consecIntervals, List.length_cons]
    rw [consecIntervals_length (b :: rest)]
    simp

theorem consecIntervals_getD (d : RealAnchor) (e : TMapEntry) :
    ∀ (l : List RealAnchor) (k : Nat), k + 1 < l.length →
      (consecIntervals l).getD k e =
        ⟨(l.getD k d).1, (l.getD (k + 1) d).1, (l.getD k d).2.1, (l.getD k d).2.2⟩
  | [], k, h => by simp at h
  | [_], k, h => by simp at h
  | a :: b :: rest, 0, h => by simp [consecIntervals]
  | a :: b :: rest, k + 1, h => by
    simp only [consecIntervals, List.getD_cons_succ]
    exact consecIntervals_getD d e (b :: rest) k (by simpa using h)

/-- Consecutive intervals are contiguous by construction: each interval's
end is the next interval's start. -/
theorem consecIntervals_contiguous :
    ∀ (l : List RealAnchor),
      List.Chain' (fun e f => e.stop = f.start) (consecIntervals l)
  | [] => List.chain'_nil
  | [_] => List.chain'_nil
  | a :: b :: rest => by
    have ih := consecIntervals_contiguous (b :: rest)
    cases rest with
    | nil => simp [consecIntervals]
    | cons c rest =>
      refine List.Chain'.cons ?_ ih
      simp [consecIntervals]

/-- If the projected times are non-decreasing, every interval satisfies
start ≤ end. -/
theorem consecIntervals_start_le_stop :
    ∀ (l : List RealAnchor), List.Chain' (· ≤ ·) (l.map Prod.fst) →
      ∀ e ∈ consecIntervals l, e.start ≤ e.stop
  | [], _, e, he => by simp [consecIntervals] at he
  | [_], _, e, he => by simp [consecIntervals] at he
  | a :: b :: rest, h, e, he => by
    simp only [List.map_cons, List.chain'_cons] at h
    simp only [consecIntervals, List.mem_cons] at he
    rcases he with he | he
    · subst he
      exact h.1
    · exact consecIntervals_start_le_stop (b :: rest) (by simpa using h.2) e he

/-- If the projected times are non-decreasing, the interval starts are
non-decreasing. -/
theorem consecIntervals_starts_chain :
    ∀ (l : List RealAnchor), List.Chain' (· ≤ ·) (l.map Prod.fst) →
      List.Chain' (· ≤ ·) ((consecIntervals l).map TMapEntry.start)
  | [] => fun _ => List.chain'_nil
  | [_] => fun _ => List.chain'_nil
  | a :: b :: rest => by
    intro h
    simp only [List.map_cons, List.chain'_cons] at h
    have ih := consecIntervals_starts_chain (b :: rest) (by simpa using h.2)
    cases rest with
    | nil => simp [consecIntervals]
    | cons c rest =>
      simp only [consecIntervals, List.map_cons, List.chain'_cons] at ih ⊢
      exact ⟨h.1, ih⟩

/-- Telescoping: the durations of the consecutive intervals sum to the last
projected time minus the first one. -/
theorem consecIntervals_durations (d : RealAnchor) :
    ∀ (l : List RealAnchor), l ≠ [] →
      ((consecIntervals l).map (fun e => e.stop - e.start)).sum
        = (l.getD (l.length - 1) d).1 - (l.getD 0 d).1
  | [], h => absurd rfl h
  | [_], _ => by simp [consecIntervals]
  | a :: b :: rest, _ => by
    have ih := consecIntervals_durations d (b :: rest) (by simp)
    have hlast : (a :: b :: rest).getD ((a :: b :: rest).length - 1) d
        = (b :: rest).getD ((b :: rest).length - 1) d := by
      simp only [List.length_cons, Nat.add_sub_cancel, List.getD_cons_succ]
    simp only [consecIntervals, List.map_cons, List.sum_cons]
    rw [ih, hlast]
    simp only [List.getD_cons_zero]
    ring

/-- Folding a replace-accumulator function over a non-empty list yields the
value at the last element (the `end` variable of `_translate_text_map`). -/
theorem translate_foldl_eq (h : ℚ) :
    ∀ (m : List TMapEntry) (acc : ℚ), m ≠ [] →
      m.foldl (fun _ e => e.stop + h) acc = (m.getD (m.length - 1) default).stop + h
  | [], _, hne => absurd rfl hne
  | [a], acc, _ => by simp
  | a :: b :: r, acc, _ => by
    have ih := translate_foldl_eq h (b :: r) (a.stop + h) (by simp)
    simp only [List.foldl_cons] at ih ⊢
    rw [ih]
    simp only [List.length_cons, Nat.add_sub_cancel, List.getD_cons_succ]

theorem getD_set {α : Type} (d : α) :
    ∀ (l : List α) (i j : Nat) (a : α), j < l.length →
      (l.set i a).getD j d = if i = j then a else l.getD j d
  | [], i, j, a, h => by simp at h
  | x :: l, 0, 0, a, h => by simp
  | x :: l, 0, j + 1, a, h => by simp
  | x :: l, i + 1, 0, a, h => by simp
  | x :: l, i + 1, j + 1, a, h => by
    simp only [List.set_cons_succ, List.getD_cons_succ]
    rw [getD_set d l i j a (by simpa using h)]
    by_cases hij : i = j <;> simp [hij]

theorem stretchFix_length (m : List TMapEntry) : (stretchFix m).length = m.length := by
  simp [stretchFix]

/-- Pointwise description of the STRETCH mutation: row 1 takes the HEAD
start, row `length - 2` takes the TAIL stop, all other fields survive. -/
theorem stretchFix_getD (m : List TMapEntry) (_hm : 2 ≤ m.length)
    (j : Nat) (hj : j < m.length) :
    (stretchFix m).getD j default =
      { start := if j = 1 then (m.getD 0 default).start else (m.getD j default).start,
        stop := if j = m.length - 2 then (m.getD (m.length - 1) default).stop
                else (m.getD j default).stop,
        fragId := (m.getD j default).fragId,
        fragText := (m.getD j default).fragText } := by
  unfold stretchFix
  simp only [List.length_set]
  rw [getD_set default _ (m.length - 2) j _ (by simpa using hj)]
  by_cases hj2 : m.length - 2 = j
  · rw [getD_set default m 1 (m.length - 2) _ (by omega)]
    subst hj2
    by_cases h12 : (1 : Nat) = m.length - 2
    · simp [← h12]
    · have hne1 : ¬(m.length - 2 = 1) := fun hc => h12 hc.symm
      simp [h12, hne1]
  · have hj2s : ¬(j = m.length - 2) := fun hc => hj2 hc.symm
    rw [getD_set default m 1 j _ hj]
    by_cases hj1 : (1 : Nat) = j
    · subst hj1
      simp [hj2, hj2s]
    · have hne1 : ¬(j = 1) := fun hc => hj1 hc.symm
      simp [hj1, hj2, hj2s, hne1]

theorem getD_range_map {β : Type} (g : Nat → β) (n i : Nat) (hi : i < n) (d : β) :
    ((List.range n).map g).getD i d = g i := by
  rw [List.getD_eq_getElem _ _ (by simpa using hi)]
  simp [hi]

theorem getD_map_any {α β : Type} (f : α → β) (l : List α) (k : Nat)
    (h : k < l.length) (d : β) (dA : α) :
    (l.map f).getD k d = f (l.getD k dA) := by
  rw [List.getD_eq_getElem _ _ (by simpa using h), List.getD_eq_getElem _ _ h]
  simp

theorem realAnchors_length (W : List (ℚ × ℚ)) (A : List Anchor) :
    (realAnchors W A).length = A.length + 1 := by
  simp [realAnchors]

theorem realAnchors_getD_lt (W : List (ℚ × ℚ)) (A : List Anchor)
    (k : Nat) (hk : k < A.length) :
    (realAnchors W A).getD k default =
      ((W.map Prod.fst).getD (argminAbs (A.getD k default).time (W.map Prod.snd)) 0,
       some (A.getD k default).fragId, some (A.getD k default).fragText) := by
  unfold realAnchors
  rw [getD_append_eq _ _ k _ (by simpa using hk)]
  exact getD_map_any _ A k hk default default

theorem realAnchors_getD_last (W : List (ℚ × ℚ)) (A : List Anchor) :
    (realAnchors W A).getD A.length default =
      ((W.map Prod.fst).getD ((W.map Prod.fst).length - 1) 0, none, none) := by
  unfold realAnchors
  have h := getD_append_last
    (A.map fun a =>
      (((W.map Prod.fst).getD (argminAbs a.time (W.map Prod.snd)) 0,
        some a.fragId, some a.fragText) : RealAnchor))
    (((W.map Prod.fst).getD ((W.map Prod.fst).length - 1) 0, none, none) : RealAnchor)
    default
  simpa using h

/-- Any argmin index over the synthetic column is a valid index into the
real column. -/
theorem argminAbs_lt_realLength (W : List (ℚ × ℚ)) (hW : W ≠ []) (t : ℚ) :
    argminAbs t (W.map Prod.snd) < (W.map Prod.fst).length := by
  have hsyntne : W.map Prod.snd ≠ [] := by simpa using hW
  obtain ⟨j, v, hj⟩ := argminAbsO_isSome t (W.map Prod.snd) hsyntne
  rw [argminAbs_eq _ _ j v hj]
  have := (argminAbsO_val _ _ j v hj).1
  simpa using (by simpa using this : j < W.length)

/-- Under sorted wave-map columns and sorted anchor times, the projected
first components of `realAnchors` are pairwise non-decreasing. -/
theorem realAnchors_fst_pairwise (W : List (ℚ × ℚ)) (A : List Anchor)
    (hW : W ≠ [])
    (hreal : (W.map Prod.fst).Pairwise (· ≤ ·))
    (hsynt : (W.map Prod.snd).Pairwise (· ≤ ·))
    (hanch : (A.map Anchor.time).Pairwise (· ≤ ·)) :
    ((realAnchors W A).map Prod.fst).Pairwise (· ≤ ·) := by
  have hsyntne : W.map Prod.snd ≠ [] := by simpa using hW
  have hrealpos : 0 < (W.map Prod.fst).length := by
    simpa using List.length_pos.mpr hW
  have hmono : ∀ a b : Anchor, a.time ≤ b.time →
      (W.map Prod.fst).getD (argminAbs a.time (W.map Prod.snd)) 0 ≤
      (W.map Prod.fst).getD (argminAbs b.time (W.map Prod.snd)) 0 := by
    intro a b hab
    exact getD_mono_of_pairwise _ hreal
      (argminAbs_mono _ hsyntne hsynt hab) (argminAbs_lt_realLength W hW b.time)
  unfold realAnchors
  rw [List.map_append, List.map_map]
  refine List.pairwise_append.mpr ⟨?_, by simp, ?_⟩
  · rw [List.pairwise_map]
    exact (List.pairwise_map.mp hanch).imp (fun h => hmono _ _ h)
  · intro x hx y hy
    simp only [List.map_cons, List.map_nil, List.mem_singleton] at hy
    subst hy
    simp only [List.mem_map, Function.comp_apply] at hx
    obtain ⟨a, _, rfl⟩ := hx
    exact getD_mono_of_pairwise _ hreal
      (by have := argminAbs_lt_realLength W hW a.time; omega)
      (by omega)

/-! ### Claim theorems -/

/-- C2 (amended: the wave map must be non-empty; on an empty wave map
`_align_text` fails): `_align_text` projects each anchor `(t, id, text)` to
`real_times[j]` where `j` is the smallest index minimising
`|synt_times[j] - t|`, appends a final pseudo-anchor at the last real time
of the wave map, and returns one interval per anchor, interval `k`
spanning from the `k`-th projected time to the `(k+1)`-th. -/
theorem alignText_projection (W : List (ℚ × ℚ)) (A : List Anchor)
    (hW : W ≠ []) (hA : A ≠ []) :
    ∃ m, alignText W A = some m ∧
      m.length = A.length ∧
      (∀ k, k < A.length →
        ∃ j, j < W.length ∧
          (∀ i, i < W.length →
            |(W.map Prod.snd).getD j 0 - (A.getD k default).time| ≤
              |(W.map Prod.snd).getD i 0 - (A.getD k default).time|) ∧
          (∀ i, i < j →
            |(W.map Prod.snd).getD j 0 - (A.getD k default).time| <
              |(W.map Prod.snd).getD i 0 - (A.getD k default).time|) ∧
          (m.getD k default).start = (W.map Prod.fst).getD j 0 ∧
          (m.getD k default).fragId = some (A.getD k default).fragId ∧
          (m.getD k default).fragText = some (A.getD k default).fragText) ∧
      (∀ k, k + 1 < A.length →
        (m.getD k default).stop = (m.getD (k + 1) default).start) ∧
      (m.getD (A.length - 1) default).stop =
        (W.map Prod.fst).getD (W.length - 1) 0 := by
  have hlen : (realAnchors W A).length = A.length + 1 := realAnchors_length W A
  have hsyntne : W.map Prod.snd ≠ [] := by simpa using hW
  have hA1 : 0 < A.length := List.length_pos.mpr hA
  refine ⟨consecIntervals (realAnchors W A), by simp [alignText, hW],
    ?_, ?_, ?_, ?_⟩
  · rw [consecIntervals_length, hlen]
    simp
  · intro k hk
    obtain ⟨j0, v, hj0⟩ :=
      argminAbsO_isSome (A.getD k default).time (W.map Prod.snd) hsyntne
    have heq : argminAbs (A.getD k default).time (W.map Prod.snd) = j0 :=
      argminAbs_eq _ _ _ _ hj0
    obtain ⟨hj0lt, hv⟩ := argminAbsO_val (A.getD k default).time _ j0 v hj0
    refine ⟨j0, by simpa using hj0lt, ?_, ?_, ?_, ?_, ?_⟩
    · intro i hi
      have h := argminAbsO_min (A.getD k default).time _ j0 v hj0 i (by simpa using hi)
      rw [← hv]
      exact h
    · intro i hi
      have h := argminAbsO_first (A.getD k default).time _ j0 v hj0 i hi
      rw [← hv]
      exact h
    · rw [consecIntervals_getD default default _ k (by omega),
        realAnchors_getD_lt W A k hk, heq]
    · rw [consecIntervals_getD default default _ k (by omega),
        realAnchors_getD_lt W A k hk]
    · rw [consecIntervals_getD default default _ k (by omega),
        realAnchors_getD_lt W A k hk]
  · intro k hk
    rw [consecIntervals_getD default default _ k (by omega),
      consecIntervals_getD default default _ (k + 1) (by omega)]
  · rw [consecIntervals_getD default default _ (A.length - 1) (by omega)]
    have h1 : A.length - 1 + 1 = A.length := by omega
    rw [h1, realAnchors_getD_last W A]
    simp

/-- C2 counterexample: on the empty wave map (a wave map the claim
quantifies over) with a non-empty anchor list, `_align_text` fails instead
of returning the one-interval list the claim promises. -/
theorem alignText_empty_wave_cex :
    ¬ ∃ m, alignText [] [⟨0, "f1", "t"⟩] = some m ∧ m.length = 1 := by
  simp [alignText]

/-- C2 witness: the amended theorem applied at a concrete wave map and
anchor list. -/
theorem alignText_projection_witness :
    ∃ m, alignText [((1 : ℚ), (0 : ℚ)), (2, 1)] [⟨0, "f1", "t"⟩] = some m ∧
      m.length = 1 := by
  obtain ⟨m, hm, hl, -, -, -⟩ := alignText_projection
    [((1 : ℚ), (0 : ℚ)), (2, 1)] [⟨0, "f1", "t"⟩] (by simp) (by simp)
  exact ⟨m, hm, by simpa using hl⟩

/-- C3 (amended: the wave map and the anchor list must be non-empty, and
the durations sum to the last real time minus the first interval's start,
not minus the first real time of the wave map): with sorted wave-map
columns and sorted anchor times, the interval starts are non-decreasing
and every interval satisfies start ≤ end. -/
theorem alignText_guarantees (W : List (ℚ × ℚ)) (A : List Anchor)
    (hW : W ≠ []) (hA : A ≠ [])
    (hreal : (W.map Prod.fst).Pairwise (· ≤ ·))
    (hsynt : (W.map Prod.snd).Pairwise (· ≤ ·))
    (hanch : (A.map Anchor.time).Pairwise (· ≤ ·)) :
    ∃ m, alignText W A = some m ∧
      (m.map TMapEntry.start).Pairwise (· ≤ ·) ∧
      (∀ e ∈ m, e.start ≤ e.stop) ∧
      ((m.map fun e => e.stop - e.start).sum =
        (W.map Prod.fst).getD (W.length - 1) 0 - (m.getD 0 default).start) := by
  have hfst := realAnchors_fst_pairwise W A hW hreal hsynt hanch
  have hchain : List.Chain' (· ≤ ·) ((realAnchors W A).map Prod.fst) :=
    hfst.chain'
  have hlen : (realAnchors W A).length = A.length + 1 := realAnchors_length W A
  have hA1 : 0 < A.length := List.length_pos.mpr hA
  have hne : realAnchors W A ≠ [] := by
    intro hc
    rw [hc] at hlen
    simp at hlen
  refine ⟨consecIntervals (realAnchors W A), by simp [alignText, hW],
    ?_, ?_, ?_⟩
  · exact List.chain'_iff_pairwise.mp (consecIntervals_starts_chain _ hchain)
  · exact consecIntervals_start_le_stop _ hchain
  · rw [consecIntervals_durations default _ hne]
    have h1 : (realAnchors W A).length - 1 = A.length := by omega
    rw [h1, realAnchors_getD_last,
      consecIntervals_getD default default _ 0 (by omega)]
    simp

/-- C3 counterexample: a sorted wave map and a sorted one-anchor list where
the projected intervals sum to 0 while the claimed value, last real time
minus first real time, is 5. -/
theorem alignText_duration_sum_cex :
    (([((0 : ℚ), (0 : ℚ)), (5, 10)].map Prod.fst).Pairwise (· ≤ ·)) ∧
    (([((0 : ℚ), (0 : ℚ)), (5, 10)].map Prod.snd).Pairwise (· ≤ ·)) ∧
    (([(⟨9, "f", "t"⟩ : Anchor)].map Anchor.time).Pairwise (· ≤ ·)) ∧
    alignText [((0 : ℚ), (0 : ℚ)), (5, 10)] [⟨9, "f", "t"⟩] =
      some [⟨5, 5, some "f", some "t"⟩] ∧
    ¬ ((([(⟨5, 5, some "f", some "t"⟩ : TMapEntry)]).map
          fun e => e.stop - e.start).sum =
        ([((0 : ℚ), (0 : ℚ)), (5, 10)].map Prod.fst).getD 1 0 -
        ([((0 : ℚ), (0 : ℚ)), (5, 10)].map Prod.fst).getD 0 0) := by
  refine ⟨by norm_num, by norm_num, by norm_num, ?_, by norm_num⟩
  simp [alignText, realAnchors, argminAbs, argminAbsO, consecIntervals]
  all_goals ((try norm_num); (try rfl))

/-- C3 witness: the amended theorem applied at a concrete sorted wave map
and anchor list. -/
theorem alignText_guarantees_witness :
    ∃ m, alignText [((1 : ℚ), (0 : ℚ)), (2, 1)] [⟨0, "f1", "t"⟩] = some m ∧
      ∀ e ∈ m, e.start ≤ e.stop := by
  obtain ⟨m, hm, -, hse, -⟩ := alignText_guarantees
    [((1 : ℚ), (0 : ℚ)), (2, 1)] [⟨0, "f1", "t"⟩] (by simp) (by simp)
    (by norm_num) (by norm_num) (by norm_num)
  exact ⟨m, hm, hse⟩

/-- Closed form of `_translate_text_map` on a non-empty map. -/
theorem translateTextMap_eq (head_cfg : Option ℚ) (L : ℚ)
    (m : List TMapEntry) (hm : m ≠ []) :
    translateTextMap head_cfg L m = some (translatedMap head_cfg L m) := by
  simp only [translateTextMap, if_neg hm, translatedMap]
  rw [translate_foldl_eq (safe_float head_cfg 0) m 0 hm]

theorem translatedMap_length (head_cfg : Option ℚ) (L : ℚ)
    (tm : List TMapEntry) :
    (translatedMap head_cfg L tm).length = tm.length + 2 := by
  simp [translatedMap]

theorem translatedMap_getD_zero (head_cfg : Option ℚ) (L : ℚ)
    (tm : List TMapEntry) :
    (translatedMap head_cfg L tm).getD 0 default =
      ⟨0, safe_float head_cfg 0, none, none⟩ := rfl

theorem translatedMap_getD_mid (head_cfg : Option ℚ) (L : ℚ)
    (tm : List TMapEntry) (i : Nat) (hi : i < tm.length) :
    (translatedMap head_cfg L tm).getD (i + 1) default =
      ⟨(tm.getD i default).start + safe_float head_cfg 0,
       (tm.getD i default).stop + safe_float head_cfg 0,
       (tm.getD i default).fragId, (tm.getD i default).fragText⟩ := by
  simp only [translatedMap, List.getD_cons_succ]
  rw [getD_append_eq _ _ i _ (by simpa using hi)]
  exact getD_map_any _ tm i hi default default

theorem translatedMap_getD_last (head_cfg : Option ℚ) (L : ℚ)
    (tm : List TMapEntry) :
    (translatedMap head_cfg L tm).getD (tm.length + 1) default =
      ⟨(tm.getD (tm.length - 1) default).stop + safe_float head_cfg 0, L,
       none, none⟩ := by
  simp only [translatedMap, List.getD_cons_succ]
  have hx := getD_append_last
    (tm.map (fun e =>
      (⟨e.start + safe_float head_cfg 0, e.stop + safe_float head_cfg 0,
        e.fragId, e.fragText⟩ : TMapEntry)))
    (⟨(tm.getD (tm.length - 1) default).stop + safe_float head_cfg 0, L,
      none, none⟩ : TMapEntry)
    default
  simpa using hx

theorem getD_sandwich_mid {α : Type} (hd tl d : α) (mids : List α) (i : Nat)
    (hi : i < mids.length) :
    (hd :: (mids ++ [tl])).getD (i + 1) d = mids.getD i d := by
  simp only [List.getD_cons_succ]
  exact getD_append_eq _ _ i _ hi

theorem getD_sandwich_last {α : Type} (hd tl d : α) (mids : List α) :
    (hd :: (mids ++ [tl])).getD (mids.length + 1) d = tl := by
  simp only [List.getD_cons_succ]
  exact getD_append_last mids tl d

theorem getD_sandwich_last_of_len {α : Type} (hd tl d : α) (mids : List α)
    (n : Nat) (hn : mids.length = n) :
    (hd :: (mids ++ [tl])).getD (n + 1) d = tl := by
  subst hn
  exact getD_sandwich_last hd tl d mids

theorem createSyncmapBody_ADD (fragments : List TextFragment)
    (am : List TMapEntry) :
    createSyncmapBody fragments (some HeadTailFormat.ADD) am =
      ({ fragment := ⟨"HEAD", [""]⟩, start := (am.getD 0 default).start,
         stop := (am.getD 0 default).stop } : SyncFragment) ::
      (((List.range fragments.length).map fun i =>
        ({ fragment := fragments.getD i default,
           start := (am.getD (i + 1) default).start,
           stop := (am.getD (i + 1) default).stop } : SyncFragment)) ++
       [({ fragment := ⟨"TAIL", [""]⟩,
           start := (am.getD (am.length - 1) default).start,
           stop := (am.getD (am.length - 1) default).stop } : SyncFragment)]) := by
  simp [createSyncmapBody]

theorem createSyncmapBody_STRETCH (fragments : List TextFragment)
    (am : List TMapEntry) :
    createSyncmapBody fragments (some HeadTailFormat.STRETCH) am =
      (List.range fragments.length).map fun i =>
        ({ fragment := fragments.getD i default,
           start := ((stretchFix am).getD (i + 1) default).start,
           stop := ((stretchFix am).getD (i + 1) default).stop } : SyncFragment) := by
  simp [createSyncmapBody]

/-- C4: `_translate_text_map` on a non-empty interval map shifts every row
start and end by the configured head length, prepends the `[0, head]` row
with no fragment and appends the `[last_shifted_end, real_full_wave_length]`
row with no fragment; on an empty interval map it fails. -/
theorem translateTextMap_spec (head_cfg : Option ℚ) (L : ℚ)
    (m : List TMapEntry) (hm : m ≠ []) :
    translateTextMap head_cfg L [] = none ∧
    translateTextMap head_cfg L m =
      some (⟨0, safe_float head_cfg 0, none, none⟩ ::
        (m.map (fun e =>
          ⟨e.start + safe_float head_cfg 0, e.stop + safe_float head_cfg 0,
           e.fragId, e.fragText⟩) ++
         [⟨(m.getD (m.length - 1) default).stop + safe_float head_cfg 0, L,
           none, none⟩])) :=
  ⟨rfl, translateTextMap_eq head_cfg L m hm⟩

/-- C4 witness: the theorem applied at a concrete map. -/
theorem translateTextMap_spec_witness :
    translateTextMap (some 3) 20 [] = none ∧
    translateTextMap (some 3) 20 [⟨1, 2, some "a", some "x"⟩] =
      some (⟨0, safe_float (some 3) 0, none, none⟩ ::
        (([⟨1, 2, some "a", some "x"⟩] : List TMapEntry).map (fun e =>
          ⟨e.start + safe_float (some 3) 0, e.stop + safe_float (some 3) 0,
           e.fragId, e.fragText⟩) ++
         [⟨(([⟨1, 2, some "a", some "x"⟩] : List TMapEntry).getD 0 default).stop
             + safe_float (some 3) 0, 20, none, none⟩])) :=
  translateTextMap_spec (some 3) 20 [⟨1, 2, some "a", some "x"⟩] (by simp)

/-- C6: `_create_syncmap` fails iff the adjusted map length differs from
the text fragment count plus 2; on success the sync map has
`|fragments| + 2` entries under ADD and `|fragments|` entries otherwise
(STRETCH, HIDDEN or unset format). -/
theorem createSyncmap_count (fragments : List TextFragment)
    (fmt : Option HeadTailFormat) (am : List TMapEntry) :
    (am.length ≠ fragments.length + 2 → createSyncmap fragments fmt am = none) ∧
    (am.length = fragments.length + 2 →
      ∃ sm, createSyncmap fragments fmt am = some sm ∧
        sm.length =
          fragments.length + (if fmt = some HeadTailFormat.ADD then 2 else 0)) := by
  constructor
  · intro h
    simp [createSyncmap, h]
  · intro h
    refine ⟨createSyncmapBody fragments fmt am, by simp [createSyncmap, h], ?_⟩
    unfold createSyncmapBody
    by_cases hfmt : fmt = some HeadTailFormat.ADD <;> simp [hfmt]

/-- C7: under the STRETCH format, `_create_syncmap` drops the HEAD and TAIL
rows, sets the first fragment's start to the HEAD row's start and the last
fragment's end to the TAIL row's end, and keeps every other endpoint. -/
theorem createSyncmap_stretch (fragments : List TextFragment)
    (am : List TMapEntry) (hlen : am.length = fragments.length + 2) :
    ∃ sm, createSyncmap fragments (some HeadTailFormat.STRETCH) am = some sm ∧
      sm.length = fragments.length ∧
      ∀ i, i < fragments.length →
        (sm.getD i default).fragment = fragments.getD i default ∧
        (sm.getD i default).start =
          (if i = 0 then (am.getD 0 default).start
           else (am.getD (i + 1) default).start) ∧
        (sm.getD i default).stop =
          (if i = fragments.length - 1 then (am.getD (am.length - 1) default).stop
           else (am.getD (i + 1) default).stop) := by
  have hbody : createSyncmapBody fragments (some HeadTailFormat.STRETCH) am =
      (List.range fragments.length).map fun i =>
        ({ fragment := fragments.getD i default,
           start := ((stretchFix am).getD (i + 1) default).start,
           stop := ((stretchFix am).getD (i + 1) default).stop } : SyncFragment) := by
    simp [createSyncmapBody]
  refine ⟨createSyncmapBody fragments (some HeadTailFormat.STRETCH) am,
    by simp [createSyncmap, hlen], ?_, ?_⟩
  · rw [hbody]
    simp
  · intro i hi
    rw [hbody]
    have hget :
        ((List.range fragments.length).map fun i =>
          ({ fragment := fragments.getD i default,
             start := ((stretchFix am).getD (i + 1) default).start,
             stop := ((stretchFix am).getD (i + 1) default).stop } : SyncFragment)).getD
            i default =
          { fragment := fragments.getD i default,
            start := ((stretchFix am).getD (i + 1) default).start,
            stop := ((stretchFix am).getD (i + 1) default).stop } :=
      getD_range_map _ fragments.length i hi default
    have hsf := stretchFix_getD am (by omega) (i + 1) (by omega)
    rw [hget, hsf]
    refine ⟨rfl, ?_, ?_⟩ <;> dsimp only
    · by_cases h0 : i = 0
      · have h1 : i + 1 = 1 := by omega
        rw [if_pos h1, if_pos h0]
      · have h1 : ¬(i + 1 = 1) := by omega
        rw [if_neg h1, if_neg h0]
    · by_cases hlast : i = fragments.length - 1
      · have h2 : i + 1 = am.length - 2 := by omega
        rw [if_pos h2, if_pos hlast]
      · have h2 : ¬(i + 1 = am.length - 2) := by omega
        rw [if_neg h2, if_neg hlast]

/-- C8: with no configured adjust-boundary algorithm, or with AUTO, the
boundary-adjustment step returns the input interval map unchanged, whatever
the VAD outcome (it returns before the VAD object is created, so even a
failing VAD is never observed). -/
theorem adjustBoundaries_auto_id (algo : Option AdjustAlgo)
    (vad : Option Unit) (adj : List TMapEntry → List TMapEntry)
    (m : List TMapEntry)
    (h : algo = none ∨ algo = some AdjustAlgo.AUTO) :
    adjustBoundaries algo vad adj m = some m := by
  rcases h with h | h <;> subst h <;> rfl

/-- C8 witness: the theorem applied with AUTO, a failing VAD outcome and a
non-trivial external adjuster. -/
theorem adjustBoundaries_auto_id_witness :
    adjustBoundaries (some AdjustAlgo.AUTO) none (fun _ => [])
      [⟨0, 1, some "a", some "x"⟩] = some [⟨0, 1, some "a", some "x"⟩] :=
  adjustBoundaries_auto_id (some AdjustAlgo.AUTO) none (fun _ => [])
    [⟨0, 1, some "a", some "x"⟩] (Or.inr rfl)

/-- C10: when neither `head_length` nor `process_length` is configured but
at least one detect parameter is set, `_cut_head_tail` updates the task
configuration: `is_audio_file_head_length` becomes `max 0 head` and
`is_audio_file_process_length` becomes `max 0 (audio_length - tail - head)`
where `head`/`tail` are the SD detections (0 when the respective detect
parameters are absent), and every other configuration field is unchanged. -/
theorem cutHeadTail_config_effect (cfg : Config) (L dh dt : ℚ)
    (hhead : cfg.is_audio_file_head_length = none)
    (hproc : cfg.is_audio_file_process_length = none)
    (hdetect : cfg.is_audio_file_detect_head_min.isSome ∨
      cfg.is_audio_file_detect_head_max.isSome ∨
      cfg.is_audio_file_detect_tail_min.isSome ∨
      cfg.is_audio_file_detect_tail_max.isSome) :
    cutHeadTail cfg L dh dt =
      { cfg with
        is_audio_file_head_length :=
          some (max 0 (if cfg.is_audio_file_detect_head_min.isSome ||
            cfg.is_audio_file_detect_head_max.isSome then dh else 0)),
        is_audio_file_process_length :=
          some (max 0 (L -
            (if cfg.is_audio_file_detect_tail_min.isSome ||
              cfg.is_audio_file_detect_tail_max.isSome then dt else 0) -
            (if cfg.is_audio_file_detect_head_min.isSome ||
              cfg.is_audio_file_detect_head_max.isSome then dh else 0))) } := by
  have hdet : (cfg.is_audio_file_detect_head_min.isSome ||
      cfg.is_audio_file_detect_head_max.isSome ||
      cfg.is_audio_file_detect_tail_min.isSome ||
      cfg.is_audio_file_detect_tail_max.isSome) = true := by
    rcases hdetect with h | h | h | h <;> simp [h]
  simp only [cutHeadTail, hhead, hproc, Option.isSome_none, Bool.false_or,
    Bool.or_false, hdet, Bool.or_true, if_true, if_false, Bool.false_eq_true]

/-- C5 (amended: under the ADD format, the HEAD junction is contiguous only
when the first trimmed interval starts at time 0, which `_align_text` does
not guarantee — see the counterexample): for a non-empty contiguous
interval map with one row per text fragment, the sync map produced by the
translate-then-build pipeline tail (boundary adjustment being the identity
for NONE/AUTO) has contiguous consecutive entries and covers
`[0, real_full_wave_length]` exactly, under ADD when the first interval
starts at 0, and under STRETCH unconditionally. -/
theorem pipelineSyncmap_coverage (fragments : List TextFragment)
    (head_cfg : Option ℚ) (L : ℚ) (tm : List TMapEntry)
    (hne : tm ≠ []) (hlen : tm.length = fragments.length)
    (hcont : ∀ i, i + 1 < tm.length →
      (tm.getD i default).stop = (tm.getD (i + 1) default).start) :
    ((tm.getD 0 default).start = 0 →
      ∃ sm, pipelineSyncmap fragments (some HeadTailFormat.ADD) head_cfg L tm
          = some sm ∧
        sm.length = fragments.length + 2 ∧
        (∀ i, i + 1 < sm.length →
          (sm.getD i default).stop = (sm.getD (i + 1) default).start) ∧
        (sm.getD 0 default).start = 0 ∧
        (sm.getD (sm.length - 1) default).stop = L) ∧
    (∃ sm, pipelineSyncmap fragments (some HeadTailFormat.STRETCH) head_cfg L tm
        = some sm ∧
      sm.length = fragments.length ∧
      (∀ i, i + 1 < sm.length →
        (sm.getD i default).stop = (sm.getD (i + 1) default).start) ∧
      (sm.getD 0 default).start = 0 ∧
      (sm.getD (sm.length - 1) default).stop = L) := by
  have hK : 0 < fragments.length := hlen ▸ List.length_pos.mpr hne
  have htr := translateTextMap_eq head_cfg L tm hne
  have hTlen := translatedMap_length head_cfg L tm
  have hTm1 : (translatedMap head_cfg L tm).length - 1 = tm.length + 1 := by
    omega
  have hpipe : ∀ fmt, pipelineSyncmap fragments fmt head_cfg L tm =
      some (createSyncmapBody fragments fmt (translatedMap head_cfg L tm)) := by
    intro fmt
    simp [pipelineSyncmap, htr, createSyncmap, hTlen, hlen]
  constructor
  · -- ADD format
    intro hstart0
    have hbody := createSyncmapBody_ADD fragments (translatedMap head_cfg L tm)
    refine ⟨createSyncmapBody fragments (some HeadTailFormat.ADD)
      (translatedMap head_cfg L tm), hpipe _, ?_, ?_, ?_, ?_⟩
    · rw [hbody]
      simp
    · intro i hi
      rw [hbody] at hi ⊢
      simp only [List.length_cons, List.length_append, List.length_map,
        List.length_range, List.length_nil, Nat.zero_add] at hi
      cases i with
      | zero =>
        rw [List.getD_cons_zero,
          getD_sandwich_mid _ _ _ _ 0 (by simpa using hK),
          getD_range_map _ fragments.length 0 hK default]
        dsimp only
        rw [translatedMap_getD_zero, translatedMap_getD_mid _ _ _ 0 (by omega)]
        dsimp only
        rw [hstart0, zero_add]
      | succ i2 =>
        have hi2 : i2 < fragments.length := by omega
        rw [getD_sandwich_mid _ _ _ _ i2 (by simpa using hi2),
          getD_range_map _ fragments.length i2 hi2 default]
        rcases Nat.lt_or_ge (i2 + 1) fragments.length with hcase | hcase
        · rw [getD_sandwich_mid _ _ _ _ (i2 + 1) (by simpa using hcase),
            getD_range_map _ fragments.length (i2 + 1) hcase default]
          dsimp only
          rw [translatedMap_getD_mid _ _ _ i2 (by omega),
            translatedMap_getD_mid _ _ _ (i2 + 1) (by omega)]
          dsimp only
          rw [hcont i2 (by omega)]
        · have hieq : i2 + 1 + 1 = fragments.length + 1 := by omega
          rw [hieq, getD_sandwich_last_of_len _ _ _ _ fragments.length (by simp)]
          dsimp only
          rw [translatedMap_getD_mid _ _ _ i2 (by omega), hTm1,
            translatedMap_getD_last]
          dsimp only
          have hlastidx : i2 = tm.length - 1 := by omega
          rw [hlastidx]
    · rw [hbody, List.getD_cons_zero]
      dsimp only
      rw [translatedMap_getD_zero]
    · rw [hbody]
      simp only [List.length_cons, List.length_append, List.length_map,
        List.length_range, List.length_nil, Nat.zero_add, Nat.add_sub_cancel]
      rw [getD_sandwich_last_of_len _ _ _ _ fragments.length (by simp)]
      dsimp only
      rw [hTm1, translatedMap_getD_last]
  · -- STRETCH format
    have hbody := createSyncmapBody_STRETCH fragments (translatedMap head_cfg L tm)
    have hT2 : 2 ≤ (translatedMap head_cfg L tm).length := by omega
    refine ⟨createSyncmapBody fragments (some HeadTailFormat.STRETCH)
      (translatedMap head_cfg L tm), hpipe _, ?_, ?_, ?_, ?_⟩
    · rw [hbody]
      simp
    · intro i hi
      rw [hbody] at hi ⊢
      simp only [List.length_map, List.length_range] at hi
      rw [getD_range_map _ fragments.length i (by omega) default,
        getD_range_map _ fragments.length (i + 1) (by omega) default]
      dsimp only
      rw [stretchFix_getD _ hT2 (i + 1) (by omega),
        stretchFix_getD _ hT2 (i + 1 + 1) (by omega)]
      dsimp only
      have hc1 : ¬(i + 1 = (translatedMap head_cfg L tm).length - 2) := by omega
      have hc2 : ¬(i + 1 + 1 = 1) := by omega
      rw [if_neg hc1, if_neg hc2]
      rw [translatedMap_getD_mid _ _ _ i (by omega),
        translatedMap_getD_mid _ _ _ (i + 1) (by omega)]
      dsimp only
      rw [hcont i (by omega)]
    · rw [hbody, getD_range_map _ fragments.length 0 hK default]
      dsimp only
      rw [stretchFix_getD _ hT2 1 (by omega)]
      dsimp only
      rw [if_pos rfl, translatedMap_getD_zero]
    · rw [hbody]
      simp only [List.length_map, List.length_range]
      rw [getD_range_map _ fragments.length (fragments.length - 1) (by omega)
        default]
      dsimp only
      rw [stretchFix_getD _ hT2 (fragments.length - 1 + 1) (by omega)]
      dsimp only
      rw [if_pos (by omega), hTm1, translatedMap_getD_last]

/-- C5 counterexample: run on a DTW wave map whose first real time is 1
(the DTW mapping need not start at time 0), the pipeline produces, under
ADD with no head configured, the sync map `[HEAD [0,0], f1 [1,2],
TAIL [2,2]]`, whose HEAD entry is not contiguous with the first fragment
entry. -/
theorem pipelineSyncmap_head_gap_cex :
    alignText [((1 : ℚ), (0 : ℚ)), (2, 1)] [⟨0, "f1", "t"⟩] =
      some [⟨1, 2, some "f1", some "t"⟩] ∧
    pipelineSyncmap [⟨"f1", ["t"]⟩] (some HeadTailFormat.ADD) none 2
        [⟨1, 2, some "f1", some "t"⟩] =
      some [⟨⟨"HEAD", [""]⟩, 0, 0⟩, ⟨⟨"f1", ["t"]⟩, 1, 2⟩,
        ⟨⟨"TAIL", [""]⟩, 2, 2⟩] ∧
    ¬ ((([⟨⟨"HEAD", [""]⟩, 0, 0⟩, ⟨⟨"f1", ["t"]⟩, 1, 2⟩,
          ⟨⟨"TAIL", [""]⟩, 2, 2⟩] : List SyncFragment).getD 0 default).stop =
        (([⟨⟨"HEAD", [""]⟩, 0, 0⟩, ⟨⟨"f1", ["t"]⟩, 1, 2⟩,
          ⟨⟨"TAIL", [""]⟩, 2, 2⟩] : List SyncFragment).getD 1 default).start) := by
  refine ⟨?_, ?_, by norm_num⟩
  · simp [alignText, realAnchors, argminAbs, argminAbsO, consecIntervals]
  · simp [pipelineSyncmap, translateTextMap, createSyncmap, createSyncmapBody,
      safe_float, List.range_succ]

/-- C5 witness: the amended theorem applied at a concrete contiguous
one-fragment map starting at 0, STRETCH half. -/
theorem pipelineSyncmap_coverage_witness :
    ∃ sm, pipelineSyncmap [⟨"f1", ["t"]⟩] (some HeadTailFormat.STRETCH)
        (some 1) 4 [⟨0, 2, some "f1", some "t"⟩] = some sm ∧
      (sm.getD 0 default).start = 0 ∧
      (sm.getD (sm.length - 1) default).stop = 4 := by
  obtain ⟨-, h2⟩ := pipelineSyncmap_coverage [⟨"f1", ["t"]⟩] (some 1) 4
    [⟨0, 2, some "f1", some "t"⟩] (by simp) (by simp)
    (fun i hi => absurd hi (by simp))
  obtain ⟨sm, hsm, -, -, h0, hL⟩ := h2
  exact ⟨sm, hsm, h0, hL⟩

/-- C6 witness: the theorem applied at a concrete one-fragment adjusted map
under the ADD format. -/
theorem createSyncmap_count_witness :
    ∃ sm, createSyncmap [⟨"f1", ["t"]⟩] (some HeadTailFormat.ADD)
        [⟨0, 1, none, none⟩, ⟨1, 2, some "f1", some "t"⟩, ⟨2, 3, none, none⟩]
      = some sm ∧ sm.length = 3 := by
  have h := (createSyncmap_count [⟨"f1", ["t"]⟩] (some HeadTailFormat.ADD)
    [⟨0, 1, none, none⟩, ⟨1, 2, some "f1", some "t"⟩,
     ⟨2, 3, none, none⟩]).2 (by simp)
  obtain ⟨sm, hsm, hl⟩ := h
  exact ⟨sm, hsm, by simpa using hl⟩

/-- C7 witness: the theorem applied at a concrete one-fragment adjusted
map; the single fragment is stretched to span the HEAD start and the TAIL
end. -/
theorem createSyncmap_stretch_witness :
    ∃ sm, createSyncmap [⟨"f1", ["t"]⟩] (some HeadTailFormat.STRETCH)
        [⟨0, 1, none, none⟩, ⟨1, 2, some "f1", some "t"⟩, ⟨2, 3, none, none⟩]
      = some sm ∧
      (sm.getD 0 default).start = 0 ∧ (sm.getD 0 default).stop = 3 := by
  obtain ⟨sm, hsm, hlen, hall⟩ := createSyncmap_stretch [⟨"f1", ["t"]⟩]
    [⟨0, 1, none, none⟩, ⟨1, 2, some "f1", some "t"⟩, ⟨2, 3, none, none⟩]
    (by simp)
  obtain ⟨-, hstart, hstop⟩ := hall 0 (by simp)
  refine ⟨sm, hsm, ?_, ?_⟩
  · simpa using hstart
  · simpa using hstop

/-- C10 witness: the theorem applied at a concrete configuration with only
`detect_head_min` set. -/
theorem cutHeadTail_config_effect_witness :
    cutHeadTail
        ⟨none, none, some 1, none, none, none, none, none, none, [("k", "v")]⟩
        10 2 3 =
      ⟨some 2, some 8, some 1, none, none, none, none, none, none,
        [("k", "v")]⟩ := by
  have h := cutHeadTail_config_effect
    ⟨none, none, some 1, none, none, none, none, none, none, [("k", "v")]⟩
    10 2 3 rfl rfl (Or.inl (by simp))
  rw [h]
  norm_num

/-- C1: whenever `execute` returns True the task's sync map has been set to
the map freshly built by `_create_syncmap` from the adjusted interval map;
on every failing exit the task's sync map field is exactly what it was
before the call (it is assigned only in STEP 8, after the whole sync map
has been constructed). -/
theorem execute_sync_map (env : StageEnv) (task : Task) :
    ((executeModel env task).ok = true →
      ∃ fragments adjusted sm,
        task.text_file = some fragments ∧
        createSyncmap fragments
          ((env.cut_config task.configuration).os_file_head_tail_format)
          adjusted = some sm ∧
        (executeModel env task).task.sync_map = some sm) ∧
    ((executeModel env task).ok = false →
      (executeModel env task).task.sync_map = task.sync_map) := by
  unfold executeModel
  dsimp only
  repeat' split
  all_goals refine ⟨fun hok => ?_, fun hfail => ?_⟩
  all_goals first
    | (exfalso; revert hok; simp [finishRun]; done)
    | (exfalso; revert hfail; simp [finishRun]; done)
    | (simp [finishRun]; done)
    | (rename_i sm hcs;
       exact ⟨_, _, sm, by assumption, hcs, by simp [finishRun]⟩)

/-- C1 witness: the theorem applied at a concrete environment and task. -/
theorem execute_sync_map_witness :
    ((executeModel
        ⟨true, some 7, some "r.wav", some 9, true, id, true, some 8,
         some "s.wav", [⟨0, "f1", "t"⟩], some [(1, 0), (2, 1)], none, id⟩
        ⟨some 9, some [⟨"f1", ["t"]⟩],
         ⟨none, none, none, none, none, none, none, none, none, []⟩,
         none⟩).ok = true →
      ∃ fragments adjusted sm,
        (⟨some 9, some [⟨"f1", ["t"]⟩],
          ⟨none, none, none, none, none, none, none, none, none, []⟩,
          none⟩ : Task).text_file = some fragments ∧
        createSyncmap fragments
          ((id (⟨none, none, none, none, none, none, none, none, none,
            []⟩ : Config)).os_file_head_tail_format) adjusted = some sm ∧
        (executeModel
          ⟨true, some 7, some "r.wav", some 9, true, id, true, some 8,
           some "s.wav", [⟨0, "f1", "t"⟩], some [(1, 0), (2, 1)], none, id⟩
          ⟨some 9, some [⟨"f1", ["t"]⟩],
           ⟨none, none, none, none, none, none, none, none, none, []⟩,
           none⟩).task.sync_map = some sm) ∧
    ((executeModel
        ⟨true, some 7, some "r.wav", some 9, true, id, true, some 8,
         some "s.wav", [⟨0, "f1", "t"⟩], some [(1, 0), (2, 1)], none, id⟩
        ⟨some 9, some [⟨"f1", ["t"]⟩],
         ⟨none, none, none, none, none, none, none, none, none, []⟩,
         none⟩).ok = false →
      (executeModel
        ⟨true, some 7, some "r.wav", some 9, true, id, true, some 8,
         some "s.wav", [⟨0, "f1", "t"⟩], some [(1, 0), (2, 1)], none, id⟩
        ⟨some 9, some [⟨"f1", ["t"]⟩],
         ⟨none, none, none, none, none, none, none, none, none, []⟩,
         none⟩).task.sync_map = none) :=
  execute_sync_map
    ⟨true, some 7, some "r.wav", some 9, true, id, true, some 8,
     some "s.wav", [⟨0, "f1", "t"⟩], some [(1, 0), (2, 1)], none, id⟩
    ⟨some 9, some [⟨"f1", ["t"]⟩],
     ⟨none, none, none, none, none, none, none, none, none, []⟩, none⟩

/-- C9: on every run that passes the input checks (reaches STEP 0), the
final `cleanup_info` is empty and the conversion tempfile handler and path
are closed and removed; whenever STEPs 0-2 succeeded, so that STEP 3
recorded its tempfile, the synthesis handler and path are closed and
removed too — including on runs where a later stage failed. -/
theorem execute_cleanup (env : StageEnv) (task : Task)
    (L : ℚ) (fragments : List TextFragment)
    (hL : task.audio_length = some L) (hLpos : 0 < L)
    (htf : task.text_file = some fragments) (hfr : fragments.length ≠ 0) :
    (executeModel env task).cleanup_info = [] ∧
    (∀ h, env.convert_handler = some h → h ∈ (executeModel env task).closed) ∧
    (∀ p, env.convert_path = some p → p ∈ (executeModel env task).removed) ∧
    (env.convert_ok = true → env.mfcc_outcome.isSome → env.cut_ok = true →
      (∀ h, env.synth_handler = some h →
        h ∈ (executeModel env task).closed) ∧
      (∀ p, env.synth_path = some p →
        p ∈ (executeModel env task).removed)) := by
  unfold executeModel
  rw [hL, htf]
  dsimp only
  rw [if_neg (not_le.mpr hLpos), if_neg hfr]
  repeat' split
  all_goals simp_all [finishRun]

/-- C9 witness: the theorem applied at a concrete environment (with a
failing synthesis stage, whose tempfile must still be cleaned up) and
task. -/
theorem execute_cleanup_witness :
    (executeModel
        ⟨true, some 7, some "r.wav", some 9, true, id, false, some 8,
         some "s.wav", [], some [(1, 0), (2, 1)], none, id⟩
        ⟨some 9, some [⟨"f1", ["t"]⟩],
         ⟨none, none, none, none, none, none, none, none, none, []⟩,
         none⟩).cleanup_info = [] ∧
    (7 ∈ (executeModel
        ⟨true, some 7, some "r.wav", some 9, true, id, false, some 8,
         some "s.wav", [], some [(1, 0), (2, 1)], none, id⟩
        ⟨some 9, some [⟨"f1", ["t"]⟩],
         ⟨none, none, none, none, none, none, none, none, none, []⟩,
         none⟩).closed) ∧
    (8 ∈ (executeModel
        ⟨true, some 7, some "r.wav", some 9, true, id, false, some 8,
         some "s.wav", [], some [(1, 0), (2, 1)], none, id⟩
        ⟨some 9, some [⟨"f1", ["t"]⟩],
         ⟨none, none, none, none, none, none, none, none, none, []⟩,
         none⟩).closed) ∧
    ("s.wav" ∈ (executeModel
        ⟨true, some 7, some "r.wav", some 9, true, id, false, some 8,
         some "s.wav", [], some [(1, 0), (2, 1)], none, id⟩
        ⟨some 9, some [⟨"f1", ["t"]⟩],
         ⟨none, none, none, none, none, none, none, none, none, []⟩,
         none⟩).removed) := by
  obtain ⟨hinfo, hch, -, hsynth⟩ := execute_cleanup
    ⟨true, some 7, some "r.wav", some 9, true, id, false, some 8,
     some "s.wav", [], some [(1, 0), (2, 1)], none, id⟩
    ⟨some 9, some [⟨"f1", ["t"]⟩],
     ⟨none, none, none, none, none, none, none, none, none, []⟩, none⟩
    9 [⟨"f1", ["t"]⟩] rfl (by norm_num) rfl (by simp)
  obtain ⟨hsh, hsp⟩ := hsynth rfl rfl rfl
  exact ⟨hinfo, hch 7 rfl, hsh 8 rfl, hsp "s.wav" rfl⟩

end Aeneas
